import Mathlib

/-!
Verification of the document-chunking and iterative-refinement core of the
Agentic-Contract-Assistant repository.

Python strings are modeled as lists of characters (`Str`); Python float
scores are modeled as rationals (`ℚ`); a Python function that can raise is
modeled as an `Except String` computation whose `error` constructor carries
the exception message.  Each definition below is a direct translation of the
correspondingly named function in
`src/core/document_processing/document_chunking.py` or
`src/core/crew/crew_manager.py`.
-/

namespace ContractAssistant

/-- A Python string, modeled as its list of characters. -/
abbrev Str := List Char

/-! ## Python string primitives -/

/-- Python `str.lower()` (character-wise, ASCII-adequate model). -/
def pyLower (s : Str) : Str := s.map Char.toLower

/-- Python `hay.find(needle, start)`: smallest index `i ≥ start` at which
`needle` occurs in `hay`, or `none` (Python's `-1`). -/
def pyFind (hay needle : Str) (start : Nat) : Option Nat :=
  ((List.range (hay.length + 1)).filter
    (fun i => decide (start ≤ i) && needle.isPrefixOf (hay.drop i))).head?

/-- Python `needle in hay` (contiguous-substring containment). -/
def pyContains (hay needle : Str) : Bool := (pyFind hay needle 0).isSome

/-- Python regex `\s` / `str.strip()` whitespace class. -/
def pyIsSpace (c : Char) : Bool :=
  c == ' ' || c == '\t' || c == '\n' || c == '\r' ||
  c == Char.ofNat 11 || c == Char.ofNat 12

/-- Python `str.strip()`. -/
def pyStrip (s : Str) : Str :=
  ((s.dropWhile (pyIsSpace ·)).reverse.dropWhile (pyIsSpace ·)).reverse

/-- Python `str.split()` with no argument: split on whitespace runs,
dropping empty pieces. -/
def pySplitWs (s : Str) : List Str :=
  let step : Char → (List Str × Str) → (List Str × Str) := fun c acc =>
    if pyIsSpace c then (if acc.2 = [] then acc else (acc.2 :: acc.1, []))
    else (acc.1, c :: acc.2)
  let r := s.foldr step ([], [])
  if r.2 = [] then r.1 else r.2 :: r.1

/-- Python slice `s[a:b]` for already-clamped `0 ≤ a`, `b ≤ len(s)`. -/
def pySlice (s : Str) (a b : Nat) : Str := (s.take b).drop a

/-- All match positions of the loop
`while start < len(hay): pos = hay.find(needle, start); ...;
start = pos + len(needle)` used by the target-locating passes.
The fuel argument is an upper bound on the number of loop steps; callers
always pass a non-empty `needle`, for which `hay.length + 1` steps suffice. -/
def findAllOccAux (hay needle : Str) : Nat → Nat → List Nat
  | 0, _ => []
  | fuel + 1, start =>
    if start < hay.length then
      match pyFind hay needle start with
      | some pos => pos :: findAllOccAux hay needle fuel (pos + needle.length)
      | none => []
    else []

def findAllOcc (hay needle : Str) : List Nat :=
  findAllOccAux hay needle (hay.length + 1) 0

/-! ## DocumentChunkingManager.should_chunk_document / split_document

The manager's `text_splitter` is langchain's `RecursiveCharacterTextSplitter`,
an external library; `split_document` is therefore parameterized by the
splitter's `split_text` function, mirroring the injected component. -/

/-- `DocumentChunkingManager.should_chunk_document`:
`len(document_content) >= self.chunk_size`. -/
def should_chunk_document (chunk_size : Nat) (document_content : Str) : Bool :=
  decide (chunk_size ≤ document_content.length)

/-- `DocumentChunkingManager.split_document`. -/
def split_document (splitText : Str → List Str) (chunk_size : Nat)
    (document_content : Str) : List Str :=
  if should_chunk_document chunk_size document_content then
    splitText document_content
  else
    [document_content]

/-! ## DocumentChunkingManager.find_instruction_targets -/

/-- Split a string at every occurrence of the character `q` (the pieces
between quotes, used to model `re.findall` of a quoted group). -/
def splitOnChar (q : Char) (s : Str) : List Str :=
  let step : Char → (List Str × Str) → (List Str × Str) := fun c acc =>
    if c = q then (acc.2 :: acc.1, []) else (acc.1, c :: acc.2)
  let r := s.foldr step ([], [])
  r.2 :: r.1

/-- Python `re.findall(r'q([^q]*)q', s)` for a quote character `q`:
the pieces between the 1st and 2nd quote, the 3rd and 4th quote, and so on. -/
def extractQuoted (q : Char) (s : Str) : List Str :=
  let parts := splitOnChar q s
  (parts.enum.filter
    (fun p => p.1 % 2 == 1 && p.1 + 1 < parts.length)).map (·.2)

/-- The context windows collected by the find-all-occurrences loops of the
quoted-phrase and known-field passes: for each occurrence of `needleLower`
in the lowered document, the slice
`document[max(0, pos - pre) : min(len(document), pos + len(needle) + post)]`. -/
def occWindows (document : Str) (needleLower : Str) (pre post : Nat) : List Str :=
  (findAllOcc (pyLower document) needleLower).map
    (fun pos =>
      pySlice document (pos - pre)
        (min document.length (pos + needleLower.length + post)))

/-- Quoted-phrase pass (lines 89-114 of `document_chunking.py`). -/
def quotedPass (instruction document : Str) : List Str :=
  let quoted := extractQuoted '"' instruction ++ extractQuoted '\'' instruction
  (quoted.map (fun text =>
    if 3 < text.length then occWindows document (pyLower text) 100 200
    else [])).flatten

/-- Length of the separator match of `re.split(r'\n|\d+\.|\s*-\s*', ...)`
at the head of `s`, trying the three alternatives in regex order. -/
def sepMatchLen (s : Str) : Option Nat :=
  match s with
  | [] => none
  | c :: _ =>
    if c = '\n' then some 1
    else
      let d := (s.takeWhile (·.isDigit)).length
      if 0 < d && (s.drop d).head? == some '.' then some (d + 1)
      else
        let w := (s.takeWhile (pyIsSpace ·)).length
        match s.drop w with
        | '-' :: rest => some (w + 1 + (rest.takeWhile (pyIsSpace ·)).length)
        | _ => none

/-- Scanner for `re.split(r'\n|\d+\.|\s*-\s*', instruction)`.  Every
separator match consumes at least one character, so `s.length + 1` fuel
steps make the scan exact. -/
def pyReSplitAux : Nat → Str → Str → List Str
  | 0, rest, acc => [acc.reverse ++ rest]
  | fuel + 1, s, acc =>
    match s with
    | [] => [acc.reverse]
    | c :: rest =>
      match sepMatchLen (c :: rest) with
      | some L => acc.reverse :: pyReSplitAux fuel ((c :: rest).drop L) []
      | none => pyReSplitAux fuel rest (c :: acc)

def pyReSplit (s : Str) : List Str := pyReSplitAux (s.length + 1) s []

/-- Fixed verb vocabulary of the imperative-verb pass. -/
def actionVerbs : List Str :=
  [String.toList "change", String.toList "modify", String.toList "replace",
   String.toList "update", String.toList "set", String.toList "remove",
   String.toList "delete", String.toList "add", String.toList "insert"]

/-- Imperative-verb pass (lines 116-149 of `document_chunking.py`). -/
def verbPass (instruction document : Str) : List Str :=
  ((pyReSplit instruction).map (fun rawPart =>
    let part := pyStrip rawPart
    if part.length < 5 then []
    else
      (actionVerbs.map (fun verb =>
        if pyContains (pyLower part) verb then
          let verbPos := (pyFind (pyLower part) verb 0).getD 0
          if verbPos + verb.length + 1 < part.length then
            let targetPhrase := pyStrip (part.drop (verbPos + verb.length))
            if 3 < targetPhrase.length then
              let searchTerms :=
                List.intercalate [' '] ((pySplitWs targetPhrase).take 3)
              if 3 < searchTerms.length then
                match pyFind (pyLower document) (pyLower searchTerms) 0 with
                | some pos =>
                    [pySlice document (pos - 100)
                      (min document.length (pos + searchTerms.length + 200))]
                | none => []
              else []
            else []
          else []
        else [])).flatten)).flatten

/-- Fixed vocabulary of the known-field pass. -/
def commonFields : List Str :=
  [String.toList "effective date", String.toList "term",
   String.toList "termination", String.toList "governing law",
   String.toList "state", String.toList "jurisdiction",
   String.toList "payment terms", String.toList "client",
   String.toList "provider", String.toList "customer",
   String.toList "representative", String.toList "fee",
   String.toList "price", String.toList "pricing",
   String.toList "deliverable", String.toList "party",
   String.toList "parties", String.toList "section",
   String.toList "article", String.toList "clause",
   String.toList "paragraph", String.toList "agreement",
   String.toList "contract"]

/-- Known-field pass (lines 151-180 of `document_chunking.py`). -/
def fieldPass (instruction document : Str) : List Str :=
  (commonFields.map (fun field =>
    if pyContains (pyLower instruction) field then
      occWindows document field 50 200
    else [])).flatten

/-- The duplicate-removal loop at the end of `find_instruction_targets`:
a candidate is dropped when it is a substring or a superstring of an
already-kept target. -/
def dedupTargets (targets : List Str) : List Str :=
  targets.foldl
    (fun acc target =>
      if acc.any (fun existing =>
          pyContains existing target || pyContains target existing) then acc
      else acc ++ [target])
    []

/-- `DocumentChunkingManager.find_instruction_targets`. -/
def find_instruction_targets (instruction document : Str) : List Str :=
  dedupTargets
    (quotedPass instruction document ++ verbPass instruction document ++
      fieldPass instruction document)

/-! ## DocumentChunkingManager.prioritize_chunks -/

/-- Structure markers scanned by `prioritize_chunks` (lines 250-255). -/
def structureMarkers : List Str :=
  [String.toList "section", String.toList "article", String.toList "clause",
   String.toList "paragraph", String.toList "parties",
   String.toList "agreement", String.toList "witnesseth",
   String.toList "whereas", String.toList "term", String.toList "termination",
   String.toList "payment", String.toList "services",
   String.toList "obligations", String.toList "governing law",
   String.toList "liability", String.toList "indemnification"]

/-- Contribution of one target to a chunk's relevance score
(lines 224-247 of `document_chunking.py`): +5 (plus a +2/+1 position
bonus) when the lowered target occurs in the lowered chunk, else +2 for
each midpoint half found independently — but only when the lowered
target is longer than 10 characters. -/
def targetScore (chunk_lower : Str) (chunkLen : Nat) (target : Str) : Nat :=
  let target_lower := pyLower target
  if pyContains chunk_lower target_lower then
    5 +
      (let target_pos := (pyFind chunk_lower target_lower 0).getD 0
       if target_pos < chunkLen / 3 then 2
       else if target_pos < chunkLen * 2 / 3 then 1
       else 0)
  else if 10 < target_lower.length then
    (if pyContains chunk_lower (target_lower.take (target_lower.length / 2))
      then 2 else 0) +
    (if pyContains chunk_lower (target_lower.drop (target_lower.length / 2))
      then 2 else 0)
  else 0

/-- Full relevance score of one chunk: target contributions plus one point
per structure marker contained in the chunk. -/
def scoreChunk (chunk : Str) (targets : List Str) : Nat :=
  (targets.map (targetScore (pyLower chunk) chunk.length)).sum +
    (structureMarkers.filter (fun m => pyContains (pyLower chunk) m)).length

/-- The `(index, score)` pairs built by the scoring loop. -/
def chunkScores (chunks targets : List Str) : List (Nat × Nat) :=
  chunks.enum.map (fun p => (p.1, scoreChunk p.2 targets))

/-- The comparison realized by Python's stable ascending sort with key
`(-score, original_index)`: `a` sorts no later than `b` iff `a` scores
higher, or scores equal and `a`'s original index is no larger. -/
def rankKeyLe (a b : Nat × Nat) : Bool :=
  decide (b.2 < a.2) || (a.2 == b.2 && decide (a.1 ≤ b.1))

/-- `chunk_scores` after `chunk_scores.sort(key=lambda x: (-x[1], x[0]))`.
Python's sort is stable, but the `(-score, index)` keys are pairwise
distinct (the indices come from `enumerate`), so the sorted list is the
unique permutation that is sorted by the strict key order and any correct
sorting algorithm produces it; it is modeled by insertion sort. -/
def rankedPairs (chunks targets : List Str) : List (Nat × Nat) :=
  (chunkScores chunks targets).insertionSort (fun a b => rankKeyLe a b = true)

/-- `DocumentChunkingManager.prioritize_chunks`. -/
def prioritize_chunks (chunks targets : List Str) : List Str :=
  if targets.isEmpty then chunks
  else (rankedPairs chunks targets).map (fun p => chunks.getD p.1 [])

/-! ## DocumentChunkingManager.process_chunks_parallel

The per-chunk processor is modeled as a function returning
`Except Str (Str × Bool)`; an `error` value carries the message of the
exception the processor raised.  The thread pool completes futures in a
nondeterministic order but stores every result by its original index, so
the batch outcome is order-independent; the model processes the chunks in
index order. -/

/-- The credential test of `process_chunk_worker` (line 315):
`"AWS Credentials Error" in error_msg or "security token" in
error_msg.lower()`. -/
def isCredentialErrorMsg (error_msg : Str) : Bool :=
  pyContains error_msg (String.toList "AWS Credentials Error") ||
    pyContains (pyLower error_msg) (String.toList "security token")

/-- The `"<index+1>/<total>"` chunk label. -/
def chunkIdLabel (idx total : Nat) : String :=
  toString (idx + 1) ++ "/" ++ toString total

/-- The worker closure of `process_chunks_parallel`: run the processor;
re-raise credential failures with the `"AWS Bedrock credentials error"`
marker; degrade every other failure to the original chunk, unchanged. -/
def process_chunk_worker
    (processor_func : Str → Str → String → Except Str (Str × Bool))
    (instruction : Str) (total idx : Nat) (chunk : Str) :
    Except Str (Str × Bool) :=
  match processor_func chunk instruction (chunkIdLabel idx total) with
  | .ok r => .ok r
  | .error e =>
    if isCredentialErrorMsg e then
      .error (String.toList "AWS Bedrock credentials error: " ++ e)
    else
      .ok (chunk, false)

def pcpAux (processor_func : Str → Str → String → Except Str (Str × Bool))
    (instruction : Str) (total : Nat) :
    Nat → List Str → Except Str (List (Str × Bool))
  | _, [] => .ok []
  | i, chunk :: rest =>
    match process_chunk_worker processor_func instruction total i chunk with
    | .error e => .error e
    | .ok r =>
      match pcpAux processor_func instruction total (i + 1) rest with
      | .error e => .error e
      | .ok rs => .ok (r :: rs)

/-- `DocumentChunkingManager.process_chunks_parallel`: per-chunk results in
original chunk order, or the escalated credential exception. -/
def process_chunks_parallel
    (processor_func : Str → Str → String → Except Str (Str × Bool))
    (chunks : List Str) (instruction : Str) :
    Except Str (List (Str × Bool)) :=
  pcpAux processor_func instruction chunks.length 0 chunks

/-! ## DocumentChunkingManager.reassemble_chunks / validate_chunk_integrity -/

/-- `DocumentChunkingManager.reassemble_chunks` on `(text, changed)` tuples:
plain concatenation of the processed texts in list order (the source's
non-tuple fallback branch is unreachable at this type). -/
def reassemble_chunks (processed_chunks : List (Str × Bool)) : Str :=
  (processed_chunks.map (fun chunk_data => chunk_data.1)).flatten

/-- `DocumentChunkingManager.validate_chunk_integrity`.  The division that
computes the size-change quotient is modeled over `ℚ`; when the original
total length is zero it raises `ZeroDivisionError`, exactly as Python's
`/` does. -/
def validate_chunk_integrity (original_chunks processed_chunks : List Str) :
    Except Str Bool :=
  if original_chunks.length ≠ processed_chunks.length then .ok false
  else
    let original_total_length := (original_chunks.map List.length).sum
    let processed_total_length := (processed_chunks.map List.length).sum
    if original_total_length = 0 then
      .error (String.toList "ZeroDivisionError")
    else
      let sizeChange : ℚ :=
        |(processed_total_length : ℚ) - (original_total_length : ℚ)| /
          (original_total_length : ℚ)
      if 1 / 2 < sizeChange then .ok false else .ok true

/-! ## ContractProcessingCrew (`src/core/crew/crew_manager.py`)

The crew's external collaborators (CrewAI agents, Bedrock) are abstracted
into a per-iteration outcome: either the modify/score round trip raised an
exception, or it produced an optional modified text and an optional
evaluation.  Scores are rationals; the result structure keeps the fields
of `CrewProcessingResult` that the core computes (`job_id`, wall-clock
time and the raw crew transcript are environment-dependent and omitted). -/

/-- The `satisfied` / `overall_score` pair the loop reads from the critic's
evaluation dictionary. -/
structure EvaluationStub where
  satisfied : Bool
  overall_score : ℚ
deriving DecidableEq, Repr

/-- Outcome of one actor-critic iteration: the crew call either raised, or
returned an optional (truthy) modified text and an optional (truthy)
evaluation. -/
inductive IterOutcome where
  | throw (msg : String)
  | ok (modified_rtf : Option String) (evaluation : Option EvaluationStub)
deriving DecidableEq, Repr

/-- The fields of `CrewProcessingResult` computed by the refinement core. -/
structure CrewProcessingResult where
  success : Bool
  final_rtf : Option String
  iterations_used : Nat
  final_score : Option ℚ
  error_message : Option String
deriving DecidableEq, Repr

/-- The `for iteration in range(1, max_iterations + 1)` loop of
`_process_single_document` (lines 168-207).  Arguments after `outcomes`:
remaining iterations, next iteration number, `iterations_used`,
`current_rtf`, `final_score`.  Returns the Python locals at loop exit, or
the exception re-raised on a first-iteration failure. -/
def singleDocLoopAux (outcomes : Nat → IterOutcome) :
    Nat → Nat → Nat → String → Option ℚ →
    Except String (Nat × String × Option ℚ)
  | 0, _, iterations_used, current_rtf, final_score =>
    .ok (iterations_used, current_rtf, final_score)
  | rem + 1, iteration, _, current_rtf, final_score =>
    match outcomes iteration with
    | .throw e =>
      if iteration = 1 then .error e
      else .ok (iteration, current_rtf, final_score)
    | .ok modified_rtf evaluation =>
      let current : String :=
        match modified_rtf with
        | some m => if m.length ≠ 0 then m else current_rtf
        | none => current_rtf
      match evaluation with
      | some ev =>
        if ev.satisfied then .ok (iteration, current, some ev.overall_score)
        else
          singleDocLoopAux outcomes rem (iteration + 1) iteration current
            (some ev.overall_score)
      | none =>
        singleDocLoopAux outcomes rem (iteration + 1) iteration current
          final_score

/-- `ContractProcessingCrew._process_single_document`:
`max_iterations = min(config_max_iterations, 3)`, run the loop, then the
lenient terminal rule
`success = final_score is not None and (final_score >= min_score * 0.85 or
iterations_used >= 2)`. -/
def process_single_document (cfg_max_iterations : Nat) (minimum_score : ℚ)
    (outcomes : Nat → IterOutcome) (original_rtf : String) :
    Except String CrewProcessingResult :=
  let max_iterations := min cfg_max_iterations 3
  match singleDocLoopAux outcomes max_iterations 1 0 original_rtf none with
  | .error e => .error e
  | .ok (iterations_used, current_rtf, final_score) =>
    let success : Bool :=
      match final_score with
      | some s =>
        decide (minimum_score * (85 / 100) ≤ s) || decide (2 ≤ iterations_used)
      | none => false
    .ok
      { success := success
        final_rtf := if success then some current_rtf else none
        iterations_used := iterations_used
        final_score := final_score
        error_message :=
          if success then none
          else
            some ("Processing incomplete after " ++ toString iterations_used ++
              " iterations (score: " ++ toString final_score ++ ")") }

/-- The `CrewProcessingResult` built by `process_contract`'s catch-all
`except` block (lines 140-151). -/
def failure_result (e : String) : CrewProcessingResult :=
  { success := false
    final_rtf := none
    iterations_used := 0
    final_score := none
    error_message := some ("Processing failed: " ++ e) }

/-- `ContractProcessingCrew.process_contract`: dispatch on
`should_chunk_document`, and convert any exception escaping either path
into a `success=False` result.  The chunked path's outcome is passed in as
`chunkedRun`; an `Except.error` result value would model the call raising,
which the `try/except` turns into `failure_result`. -/
def process_contract (cfg_max_iterations : Nat) (minimum_score : ℚ)
    (chunk_size : Nat) (chunkedRun : Except String CrewProcessingResult)
    (outcomes : Nat → IterOutcome) (original_rtf : String) :
    Except String CrewProcessingResult :=
  let inner : Except String CrewProcessingResult :=
    if should_chunk_document chunk_size original_rtf.toList then chunkedRun
    else process_single_document cfg_max_iterations minimum_score outcomes
      original_rtf
  match inner with
  | .ok r => .ok r
  | .error e => .ok (failure_result e)

/-- `ContractProcessingCrew._process_chunks_parallel` (lines 301-358): one
crew per chunk, futures completed in arbitrary order, every result filed
into the `results` dict under the chunk's index in the input list, and the
ordered list rebuilt from that dict; a failed or timed-out chunk falls
back to `(original_chunk, False)`.  `run` abstracts one chunk's crew
execution together with `_extract_chunk_result` and the fallback, so the
rebuilt list is the input-order map of `run`. -/
def crewProcessChunksParallel (run : Nat → Str → Str × Bool)
    (chunks : List Str) : List (Str × Bool) :=
  chunks.enum.map (fun p => run p.1 p.2)

/-- The chunked-path data flow of `_process_with_chunking` (lines 233-245)
from the splitter's chunks and the located targets to the reassembled
document: prioritize, process in parallel, reassemble. -/
def chunkedPipeline (run : Nat → Str → Str × Bool) (chunks targets : List Str) :
    Str :=
  reassemble_chunks
    (crewProcessChunksParallel run (prioritize_chunks chunks targets))

/-! ## Claim C3: chunking threshold and small-document split -/

/-- C3: `shouldChunk(doc)` is true exactly when `len(doc) >= maxChunkSize`;
for every positive `maxChunkSize` the outcomes at lengths
`maxChunkSize - 1` and `maxChunkSize` differ; and every document shorter
than `maxChunkSize` splits into the single chunk equal to the whole
document, for any injected text splitter. -/
theorem shouldChunk_threshold_and_small_split
    (chunk_size : Nat) (doc d1 d2 : Str) (splitText : Str → List Str)
    (hpos : 1 ≤ chunk_size) :
    (should_chunk_document chunk_size doc = decide (chunk_size ≤ doc.length)) ∧
    (d1.length = chunk_size - 1 → d2.length = chunk_size →
      should_chunk_document chunk_size d1 ≠ should_chunk_document chunk_size d2) ∧
    (doc.length < chunk_size → split_document splitText chunk_size doc = [doc]) := by
  refine ⟨rfl, ?_, ?_⟩
  · intro h1 h2
    simp only [should_chunk_document, ne_eq, decide_eq_decide, h1, h2]
    omega
  · intro hlt
    have : should_chunk_document chunk_size doc = false := by
      simp only [should_chunk_document, decide_eq_false_iff_not]
      omega
    simp [split_document, this]

/-- C3 witness: at `maxChunkSize = 4`, length 3 and length 4 differ in
outcome, and a length-3 document splits into itself as a single chunk. -/
theorem shouldChunk_threshold_and_small_split_witness :
    (should_chunk_document 4 (String.toList "abc") ≠
      should_chunk_document 4 (String.toList "abcd")) ∧
    split_document (fun _ => []) 4 (String.toList "abc") =
      [String.toList "abc"] :=
  ⟨(shouldChunk_threshold_and_small_split 4 (String.toList "ab")
      (String.toList "abc") (String.toList "abcd") (fun _ => [])
      (by decide)).2.1 (by decide) (by decide),
   (shouldChunk_threshold_and_small_split 4 (String.toList "abc")
      (String.toList "x") (String.toList "y") (fun _ => [])
      (by decide)).2.2 (by decide)⟩

/-! ## Claim C10: division by zero in validate_chunk_integrity -/

/-- C10: for equal-length chunk lists whose original side has total
character length zero, `validate_chunk_integrity` does not return a
boolean but raises `ZeroDivisionError`. -/
theorem validateIntegrity_zero_division (original processed : List Str)
    (hlen : original.length = processed.length)
    (hzero : (original.map List.length).sum = 0) :
    validate_chunk_integrity original processed =
      Except.error (String.toList "ZeroDivisionError") := by
  simp [validate_chunk_integrity, hlen, hzero]

/-- C10 witness: `validate_chunk_integrity([""], ["a"])` raises. -/
theorem validateIntegrity_zero_division_witness :
    validate_chunk_integrity [[]] [[('a' : Char)]] =
      Except.error (String.toList "ZeroDivisionError") :=
  validateIntegrity_zero_division [[]] [[('a' : Char)]] (by decide) (by decide)

/-! ## Claim C6: validate_chunk_integrity boolean behavior -/

/-- C6 counterexample: the claim says equal-length lists within the 50%
budget return `true`, but at `([""], [""])` (equal lengths, zero delta)
the function raises `ZeroDivisionError` instead of returning a boolean. -/
theorem validateIntegrity_not_total_counterexample :
    validate_chunk_integrity [[]] [[]] =
      Except.error (String.toList "ZeroDivisionError") := rfl

/-- C6 (amended): `validate_chunk_integrity` returns `false` when the
chunk counts differ; when the counts agree and the original total length
is positive it returns `true` exactly when the total-length delta is at
most 50% of the original total (and `false` when the delta exceeds it);
when the counts agree and the original total length is zero it raises
instead.  The spec's examples hold. -/
theorem validateIntegrity_spec (original processed : List Str) :
    (original.length ≠ processed.length →
      validate_chunk_integrity original processed = Except.ok false) ∧
    (original.length = processed.length →
      0 < (original.map List.length).sum →
      (validate_chunk_integrity original processed = Except.ok true ↔
        |((processed.map List.length).sum : ℚ) -
            ((original.map List.length).sum : ℚ)| ≤
          (1 / 2) * ((original.map List.length).sum : ℚ)) ∧
      ((1 / 2) * ((original.map List.length).sum : ℚ) <
          |((processed.map List.length).sum : ℚ) -
            ((original.map List.length).sum : ℚ)| →
        validate_chunk_integrity original processed = Except.ok false)) ∧
    validate_chunk_integrity [String.toList "aaaa"] [String.toList "a"] =
      Except.ok false ∧
    validate_chunk_integrity [String.toList "aaaa"] [String.toList "aaaab"] =
      Except.ok true := by
  refine ⟨?_, ?_, ?_, ?_⟩
  · intro hne
    simp [validate_chunk_integrity, hne]
  · intro hlen hpos
    have hz : ¬ (List.map List.length original).sum = 0 := by omega
    have hq : (0 : ℚ) < ((List.map List.length original).sum : ℚ) := by
      exact_mod_cast hpos
    have hred : validate_chunk_integrity original processed =
        if (1 : ℚ) / 2 < |((List.map List.length processed).sum : ℚ) -
            ((List.map List.length original).sum : ℚ)| /
            ((List.map List.length original).sum : ℚ)
        then Except.ok false else Except.ok true := by
      simp only [validate_chunk_integrity, hlen, ne_eq, hz,
        not_true_eq_false, if_false, ite_false]
    have key : ((1 : ℚ) / 2 < |((List.map List.length processed).sum : ℚ) -
          ((List.map List.length original).sum : ℚ)| /
          ((List.map List.length original).sum : ℚ)) ↔
        (1 / 2) * ((List.map List.length original).sum : ℚ) <
          |((List.map List.length processed).sum : ℚ) -
            ((List.map List.length original).sum : ℚ)| :=
      lt_div_iff₀ hq
    rw [hred]
    by_cases hc : (1 : ℚ) / 2 < |((List.map List.length processed).sum : ℚ) -
        ((List.map List.length original).sum : ℚ)| /
        ((List.map List.length original).sum : ℚ)
    · rw [if_pos hc]
      refine ⟨⟨fun h => by simp at h, fun h => ?_⟩, fun _ => rfl⟩
      exact absurd (key.mp hc) (not_lt.mpr h)
    · rw [if_neg hc]
      refine ⟨⟨fun _ => not_lt.mp ((not_congr key).mp hc), fun _ => rfl⟩,
        fun h => absurd (key.mpr h) hc⟩
  · norm_num [validate_chunk_integrity]
  · norm_num [validate_chunk_integrity]

/-- C6 witness: the count-mismatch branch at a concrete input, via the
amended specification. -/
theorem validateIntegrity_spec_witness :
    validate_chunk_integrity [String.toList "ab"] [] = Except.ok false :=
  (validateIntegrity_spec [String.toList "ab"] []).1 (by decide)

/-! ## Claim C9: the half-match bonus requires target length > 10 -/

/-- C9 counterexample: for the 6-character target `"abcdef"` and the chunk
`"abcxxdef"`, the full target is absent and both midpoint halves are
present, yet the score contribution is 0, not +2+2: the half-match bonus
is gated on target length > 10, contradicting "regardless of the target's
length". -/
theorem targetScore_short_target_counterexample :
    targetScore (String.toList "abcxxdef") 8 (String.toList "abcdef") = 0 ∧
    pyContains (String.toList "abcxxdef")
      (pyLower (String.toList "abcdef")) = false ∧
    pyContains (String.toList "abcxxdef") (String.toList "abc") = true ∧
    pyContains (String.toList "abcxxdef") (String.toList "def") = true := by
  decide

/-- C9 (amended): when the full (lowered) target is absent from the chunk
and the target is longer than 10 characters, each midpoint half found in
the chunk adds +2; when the full target is absent and the target is at
most 10 characters long, the contribution is 0. -/
theorem targetScore_half_bonus (chunk_lower : Str) (chunkLen : Nat)
    (target : Str) :
    (pyContains chunk_lower (pyLower target) = false →
      10 < (pyLower target).length →
      targetScore chunk_lower chunkLen target =
        (if pyContains chunk_lower
            ((pyLower target).take ((pyLower target).length / 2))
          then 2 else 0) +
        (if pyContains chunk_lower
            ((pyLower target).drop ((pyLower target).length / 2))
          then 2 else 0)) ∧
    (pyContains chunk_lower (pyLower target) = false →
      (pyLower target).length ≤ 10 →
      targetScore chunk_lower chunkLen target = 0) := by
  constructor
  · intro habsent hlong
    simp [targetScore, habsent, hlong]
  · intro habsent hshort
    have : ¬ 10 < (pyLower target).length := by omega
    simp [targetScore, habsent, this]

/-- C9 witness: a 12-character target absent as a whole with both halves
present scores exactly 4. -/
theorem targetScore_half_bonus_witness :
    targetScore (String.toList "abcdefxghijkl") 13
        (String.toList "abcdefghijkl") =
      (if pyContains (String.toList "abcdefxghijkl")
          ((pyLower (String.toList "abcdefghijkl")).take
            ((pyLower (String.toList "abcdefghijkl")).length / 2))
        then 2 else 0) +
      (if pyContains (String.toList "abcdefxghijkl")
          ((pyLower (String.toList "abcdefghijkl")).drop
            ((pyLower (String.toList "abcdefghijkl")).length / 2))
        then 2 else 0) :=
  (targetScore_half_bonus (String.toList "abcdefxghijkl") 13
    (String.toList "abcdefghijkl")).1 (by decide) (by decide)

/-! ## Claim C1: chunked pipeline does not restore splitter order -/

/-- C1: the chunked path hands the ranker's reordered chunk list straight
to the parallel processor and the reassembler, which concatenates in that
order; no index is tracked that would restore the splitter's canonical
order.  Concretely, for splitter chunks `["xx", "section"]` (document
`"xxsection"`, overlap-free) and one located target that matches neither
chunk, the structure-marker point reorders the chunks and the pipeline
returns `"sectionxx"` even though every chunk was returned unchanged. -/
theorem chunkedPipeline_ranker_order_bug :
    chunkedPipeline (fun _ c => (c, true))
        [String.toList "xx", String.toList "section"]
        [String.toList "zzzzz"] = String.toList "sectionxx" ∧
    String.toList "sectionxx" ≠ String.toList "xx" ++ String.toList "section" :=
  ⟨rfl, by decide⟩

/-! ## Claim C5: error boundary of the refinement core -/

/-- C5 counterexample: when `modify` throws on iteration 1,
`process_contract` does not raise to its caller; its catch-all `except`
returns a `CrewProcessingResult` with `success = False` and
`error_message = "Processing failed: boom"`. -/
theorem processContract_first_iteration_counterexample :
    process_contract 3 (17 / 20) 100 (Except.error "unused")
        (fun _ => IterOutcome.throw "boom") "doc" =
      Except.ok (failure_result "boom") ∧
    (failure_result "boom").success = false ∧
    (failure_result "boom").error_message = some "Processing failed: boom" :=
  ⟨rfl, rfl, rfl⟩

/-- C5 (amended): a first-iteration modify failure propagates out of
`_process_single_document` (the loop re-raises it), but the top-level
`process_contract` catches every exception from either path and returns a
`success = False` result whose message is `"Processing failed: <e>"`; a
modify failure on an iteration other than 1 instead breaks the loop
immediately, keeping the last good current text and the last recorded
score. -/
theorem processContract_error_boundary (cfg_max : Nat) (min_score : ℚ)
    (chunk_size : Nat) (chunkedRun : Except String CrewProcessingResult)
    (outcomes : Nat → IterOutcome) (original : String) (e : String) :
    (outcomes 1 = IterOutcome.throw e → 1 ≤ cfg_max →
      process_single_document cfg_max min_score outcomes original =
        Except.error e) ∧
    (original.length < chunk_size →
      process_single_document cfg_max min_score outcomes original =
        Except.error e →
      process_contract cfg_max min_score chunk_size chunkedRun outcomes
          original = Except.ok (failure_result e)) ∧
    (∀ rem iteration itPrev current fs, iteration ≠ 1 →
      outcomes iteration = IterOutcome.throw e →
      singleDocLoopAux outcomes (rem + 1) iteration itPrev current fs =
        Except.ok (iteration, current, fs)) := by
  refine ⟨?_, ?_, ?_⟩
  · intro hthrow hcfg
    obtain ⟨k, hk⟩ : ∃ k, min cfg_max 3 = k + 1 :=
      ⟨min cfg_max 3 - 1, by omega⟩
    simp [process_single_document, hk, singleDocLoopAux, hthrow]
  · intro hsmall hinner
    have hchunk : should_chunk_document chunk_size original.toList = false := by
      simp only [should_chunk_document, decide_eq_false_iff_not, not_le]
      simpa using hsmall
    simp only [process_contract, hchunk, Bool.false_eq_true, if_false,
      hinner]
  · intro rem iteration itPrev current fs hne hthrow
    simp only [singleDocLoopAux, hthrow, hne, if_false]

/-- C5 witness: the amended boundary at concrete inputs. -/
theorem processContract_error_boundary_witness :
    process_single_document 3 (17 / 20)
        (fun _ => IterOutcome.throw "boom") "doc" = Except.error "boom" ∧
    singleDocLoopAux (fun _ => IterOutcome.throw "boom") 2 2 1 "cur" none =
      Except.ok (2, "cur", none) :=
  ⟨(processContract_error_boundary 3 (17 / 20) 100 (Except.error "u")
      (fun _ => IterOutcome.throw "boom") "doc" "boom").1 rfl (by decide),
   (processContract_error_boundary 3 (17 / 20) 100 (Except.error "u")
      (fun _ => IterOutcome.throw "boom") "cur" "boom").2.2 1 2 1 "cur" none
      (by decide) rfl⟩

/-! ## Claim C2: lenient terminal success rule -/

/-- C2: whenever the single-document loop returns a result, that result
has `success = true` exactly when a final score was recorded and (the
score reached `qualityThreshold * 0.85` or at least 2 iterations were
used); and the spec's scenario D — a critic stub always returning
`satisfied = false, overallScore = 0.5` with threshold `0.85` and
`maxIterations = 3` — ends after 3 iterations with `success = true` via
the iteration-count relaxation. -/
theorem singleDoc_success_rule :
    (∀ (cfg_max : Nat) (min_score : ℚ) (outcomes : Nat → IterOutcome)
        (original : String) (r : CrewProcessingResult),
      process_single_document cfg_max min_score outcomes original =
        Except.ok r →
      (r.success = true ↔ ∃ s, r.final_score = some s ∧
        (min_score * (85 / 100) ≤ s ∨ 2 ≤ r.iterations_used))) ∧
    process_single_document 3 (17 / 20)
        (fun _ => IterOutcome.ok (some "draft")
          (some { satisfied := false, overall_score := 1 / 2 })) "doc" =
      Except.ok
        { success := true, final_rtf := some "draft", iterations_used := 3,
          final_score := some (1 / 2), error_message := none } := by
  constructor
  · intro cfg_max min_score outcomes original r h
    simp only [process_single_document] at h
    cases heq : singleDocLoopAux outcomes (min cfg_max 3) 1 0 original none with
    | error e => rw [heq] at h; exact absurd h (by simp)
    | ok t =>
      obtain ⟨iu, cur, fs⟩ := t
      rw [heq] at h
      simp only [Except.ok.injEq] at h
      subst h
      cases fs with
      | none => simp
      | some s0 => simp [decide_eq_true_iff]
  · norm_num [process_single_document, singleDocLoopAux,
      (by decide : ¬ "draft".length = 0)]

/-- The terminal result of scenario D, as computed by the model. -/
def scenarioDResult : CrewProcessingResult :=
  { success := true, final_rtf := some "draft", iterations_used := 3,
    final_score := some (1 / 2), error_message := none }

/-- C2 witness: the success rule applied to the scenario-D run, whose
hypothesis is discharged by that run's computed result. -/
theorem singleDoc_success_rule_witness :
    scenarioDResult.success = true ↔
      ∃ s, scenarioDResult.final_score = some s ∧
        ((17 / 20 : ℚ) * (85 / 100) ≤ s ∨
          2 ≤ scenarioDResult.iterations_used) :=
  singleDoc_success_rule.1 3 (17 / 20)
    (fun _ => IterOutcome.ok (some "draft")
      (some { satisfied := false, overall_score := 1 / 2 })) "doc"
    scenarioDResult singleDoc_success_rule.2

/-! ## Claim C7: kept targets are pairwise containment-free -/

/-- Helper: the duplicate-removal fold preserves pairwise
containment-freedom of its accumulator. -/
theorem dedupTargets_foldl_pairwise (ts : List Str) :
    ∀ acc : List Str,
      acc.Pairwise
        (fun a b => pyContains a b = false ∧ pyContains b a = false) →
      (ts.foldl (fun acc target =>
          if acc.any (fun existing =>
              pyContains existing target || pyContains target existing)
          then acc else acc ++ [target]) acc).Pairwise
        (fun a b => pyContains a b = false ∧ pyContains b a = false) := by
  induction ts with
  | nil => exact fun acc h => h
  | cons t ts ih =>
    intro acc h
    simp only [List.foldl_cons]
    apply ih
    by_cases hany : acc.any (fun existing =>
        pyContains existing t || pyContains t existing) = true
    · rw [if_pos hany]; exact h
    · rw [if_neg hany]
      rw [List.pairwise_append]
      refine ⟨h, List.pairwise_singleton _ _, ?_⟩
      intro a ha b hb
      rw [List.mem_singleton] at hb
      have hfalse : acc.any (fun existing =>
          pyContains existing t || pyContains t existing) = false :=
        Bool.eq_false_iff.mpr hany
      have hfa := List.any_eq_false.mp hfalse a ha
      simp only [Bool.or_eq_true, not_or, Bool.not_eq_true] at hfa
      rw [hb]
      exact hfa

/-- C7: the target list returned by `find_instruction_targets` never
contains two entries (at distinct positions) where one is a substring of
the other: the kept targets are pairwise containment-free in both
directions. -/
theorem findTargets_containment_free (instruction document : Str) :
    (find_instruction_targets instruction document).Pairwise
      (fun a b => pyContains a b = false ∧ pyContains b a = false) :=
  dedupTargets_foldl_pairwise
    (quotedPass instruction document ++ verbPass instruction document ++
      fieldPass instruction document) [] List.Pairwise.nil

/-! ## Claim C4: batch-fatal credential errors, isolated other errors -/

/-- Helper: full characterization of the chunk batch processed from index
`start`: it raises exactly when some remaining chunk's processor raises a
credential-marked error, and otherwise each slot holds the processor's
result, degraded to `(original chunk, false)` on a non-credential error. -/
theorem pcpAux_spec
    (processor_func : Str → Str → String → Except Str (Str × Bool))
    (instruction : Str) (total : Nat) :
    ∀ (rest : List Str) (start : Nat),
      ((∃ e, pcpAux processor_func instruction total start rest =
          Except.error e) ↔
        ∃ j, j < rest.length ∧ ∃ msg,
          processor_func (rest.getD j []) instruction
              (chunkIdLabel (start + j) total) = Except.error msg ∧
          isCredentialErrorMsg msg = true) ∧
      (∀ res, pcpAux processor_func instruction total start rest =
          Except.ok res →
        res.length = rest.length ∧
        ∀ j, j < rest.length →
          res.getD j ([], false) =
            match processor_func (rest.getD j []) instruction
                (chunkIdLabel (start + j) total) with
            | Except.ok r => r
            | Except.error _ => (rest.getD j [], false)) := by
  intro rest
  induction rest with
  | nil =>
    intro start
    refine ⟨⟨?_, ?_⟩, ?_⟩
    · rintro ⟨e, he⟩
      simp [pcpAux] at he
    · rintro ⟨j, hj, -⟩
      exact absurd hj (by simp)
    · intro res hres
      simp only [pcpAux, Except.ok.injEq] at hres
      subst hres
      exact ⟨rfl, fun j hj => absurd hj (by simp)⟩
  | cons c cs ih =>
    intro start
    have ihs := ih (start + 1)
    have hworker :
        (∃ msg, processor_func c instruction (chunkIdLabel start total) =
            Except.error msg ∧ isCredentialErrorMsg msg = true ∧
          process_chunk_worker processor_func instruction total start c =
            Except.error
              (String.toList "AWS Bedrock credentials error: " ++ msg)) ∨
        (process_chunk_worker processor_func instruction total start c =
            Except.ok
              (match processor_func c instruction
                  (chunkIdLabel start total) with
                | Except.ok r => r
                | Except.error _ => (c, false)) ∧
          ∀ msg, processor_func c instruction (chunkIdLabel start total) =
              Except.error msg → isCredentialErrorMsg msg = false) := by
      cases hf : processor_func c instruction (chunkIdLabel start total) with
      | ok r0 =>
        right
        refine ⟨by simp [process_chunk_worker, hf], ?_⟩
        intro msg hmsg
        exact absurd hmsg (by simp)
      | error msg =>
        cases hcred : isCredentialErrorMsg msg with
        | true =>
          left
          exact ⟨msg, rfl, hcred, by simp [process_chunk_worker, hf, hcred]⟩
        | false =>
          right
          refine ⟨by simp [process_chunk_worker, hf, hcred], ?_⟩
          intro msg2 hmsg2
          simp only [Except.error.injEq] at hmsg2
          rw [← hmsg2]
          exact hcred
    rcases hworker with ⟨msg, hf, hcred, hw⟩ | ⟨hw, hnc⟩
    · -- head chunk raises a credential error: the whole batch raises
      have hpc : pcpAux processor_func instruction total start (c :: cs) =
          Except.error
            (String.toList "AWS Bedrock credentials error: " ++ msg) := by
        simp only [pcpAux, hw]
      refine ⟨⟨fun _ => ⟨0, by simp, msg, ?_, hcred⟩, fun _ => ⟨_, hpc⟩⟩, ?_⟩
      · simpa using hf
      · intro res hres
        rw [hpc] at hres
        exact absurd hres (by simp)
    · -- head chunk yields a slot value; the batch outcome is the tail's
      have hpc : pcpAux processor_func instruction total start (c :: cs) =
          match pcpAux processor_func instruction total (start + 1) cs with
          | Except.error e => Except.error e
          | Except.ok rs =>
            Except.ok
              ((match processor_func c instruction
                  (chunkIdLabel start total) with
                | Except.ok r => r
                | Except.error _ => (c, false)) :: rs) := by
        simp only [pcpAux, hw]
      refine ⟨⟨?_, ?_⟩, ?_⟩
      · rintro ⟨e, he⟩
        rw [hpc] at he
        cases htail : pcpAux processor_func instruction total (start + 1) cs with
        | error e2 =>
          obtain ⟨j, hj, msg, hfj, hcj⟩ := (ihs.1).mp ⟨e2, htail⟩
          refine ⟨j + 1, by simpa using Nat.succ_lt_succ hj, msg, ?_, hcj⟩
          have harith : start + (j + 1) = start + 1 + j := by omega
          rw [List.getD_cons_succ, harith]
          exact hfj
        | ok rs =>
          rw [htail] at he
          exact absurd he (by simp)
      · rintro ⟨j, hj, msg, hfj, hcj⟩
        cases j with
        | zero =>
          have h0 : processor_func c instruction (chunkIdLabel start total) =
              Except.error msg := by simpa using hfj
          have := hnc msg h0
          rw [hcj] at this
          exact absurd this (by simp)
        | succ j =>
          have hj2 : j < cs.length := by simpa using hj
          have harith : start + (j + 1) = start + 1 + j := by omega
          have hfj2 : processor_func (cs.getD j []) instruction
              (chunkIdLabel (start + 1 + j) total) = Except.error msg := by
            rw [← harith]
            simpa using hfj
          obtain ⟨e2, he2⟩ := (ihs.1).mpr ⟨j, hj2, msg, hfj2, hcj⟩
          refine ⟨e2, ?_⟩
          rw [hpc, he2]
      · intro res hres
        rw [hpc] at hres
        cases htail : pcpAux processor_func instruction total (start + 1) cs with
        | error e2 =>
          rw [htail] at hres
          exact absurd hres (by simp)
        | ok rs =>
          rw [htail] at hres
          simp only [Except.ok.injEq] at hres
          subst hres
          obtain ⟨hlen, hslot⟩ := ihs.2 rs htail
          refine ⟨by simp [hlen], ?_⟩
          intro j hj
          cases j with
          | zero =>
            simp only [List.getD_cons_zero, Nat.add_zero]
          | succ j =>
            have hj2 : j < cs.length := by simpa using hj
            have harith : start + (j + 1) = start + 1 + j := by omega
            simp only [List.getD_cons_succ, harith]
            exact hslot j hj2

/-- C4: `process_chunks_parallel` raises exactly when some chunk's
processor raises an error whose message carries a credential-failure
marker (no result list is produced then); every other per-chunk exception
is isolated — that chunk's slot in the returned list holds the original
chunk text with `changed = false` — and the batch completes with one slot
per chunk. -/
theorem processChunksParallel_error_semantics
    (processor_func : Str → Str → String → Except Str (Str × Bool))
    (chunks : List Str) (instruction : Str) :
    ((∃ e, process_chunks_parallel processor_func chunks instruction =
        Except.error e) ↔
      ∃ j, j < chunks.length ∧ ∃ msg,
        processor_func (chunks.getD j []) instruction
            (chunkIdLabel j chunks.length) = Except.error msg ∧
        isCredentialErrorMsg msg = true) ∧
    (∀ res, process_chunks_parallel processor_func chunks instruction =
        Except.ok res →
      res.length = chunks.length ∧
      ∀ j, j < chunks.length →
        res.getD j ([], false) =
          match processor_func (chunks.getD j []) instruction
              (chunkIdLabel j chunks.length) with
          | Except.ok r => r
          | Except.error _ => (chunks.getD j [], false)) := by
  have h := pcpAux_spec processor_func instruction chunks.length chunks 0
  simpa only [process_chunks_parallel, Nat.zero_add] using h

/-- C4 witness: a processor that raises a credential-marked error on the
first chunk makes the whole batch raise. -/
theorem processChunksParallel_error_semantics_witness :
    ∃ e, process_chunks_parallel
        (fun _ _ _ =>
          Except.error (String.toList "AWS Credentials Error: denied"))
        [String.toList "c1", String.toList "c2"] [] = Except.error e :=
  (processChunksParallel_error_semantics
      (fun _ _ _ =>
        Except.error (String.toList "AWS Credentials Error: denied"))
      [String.toList "c1", String.toList "c2"] []).1.mpr
    ⟨0, by decide, String.toList "AWS Credentials Error: denied",
      rfl, by decide⟩

/-! ## Claim C8: prioritize_chunks is a key-sorted permutation -/

/-- Helper: rebuilding a list from its enumeration by index lookup is the
identity. -/
theorem enum_map_getD {α : Type} (l : List α) (d : α) :
    l.enum.map (fun p => l.getD p.1 d) = l := by
  apply List.ext_getElem
  · simp
  · intro n h1 h2
    simp only [List.getElem_map, List.getElem_enum]
    exact List.getD_eq_getElem l d (by simpa using h2)

/-- Helper: the rank comparison is total. -/
theorem rankKeyLe_total (a b : Nat × Nat) :
    rankKeyLe a b = true ∨ rankKeyLe b a = true := by
  simp only [rankKeyLe, Bool.or_eq_true, Bool.and_eq_true, decide_eq_true_iff,
    beq_iff_eq]
  omega

/-- Helper: the rank comparison is transitive. -/
theorem rankKeyLe_trans (a b c : Nat × Nat) (hab : rankKeyLe a b = true)
    (hbc : rankKeyLe b c = true) : rankKeyLe a c = true := by
  simp only [rankKeyLe, Bool.or_eq_true, Bool.and_eq_true, decide_eq_true_iff,
    beq_iff_eq] at *
  omega

/-- Helper: the indices carried by the scored pairs are exactly
`range chunks.length`. -/
theorem chunkScores_map_fst (chunks targets : List Str) :
    (chunkScores chunks targets).map Prod.fst = List.range chunks.length := by
  simp only [chunkScores, List.map_map]
  have h : (Prod.fst ∘ fun p : Nat × Str => (p.1, scoreChunk p.2 targets)) =
      Prod.fst := rfl
  rw [h, List.enum_map_fst]

/-- C8: `prioritize_chunks` returns a permutation of its input (no chunk
dropped or duplicated); with an empty target list the input is returned
unchanged; and with a non-empty target list the output is the index lookup
of the ranked pairs, which are strictly sorted by descending computed
score with ties broken by ascending original index (so equal-score chunks
keep their original relative order), and each ranked pair carries the
computed score of the chunk at its index. -/
theorem prioritizeChunks_rank_spec (chunks targets : List Str) :
    (prioritize_chunks chunks targets).Perm chunks ∧
    (targets = [] → prioritize_chunks chunks targets = chunks) ∧
    (targets ≠ [] →
      prioritize_chunks chunks targets =
        (rankedPairs chunks targets).map (fun p => chunks.getD p.1 []) ∧
      (rankedPairs chunks targets).Pairwise
        (fun a b => b.2 < a.2 ∨ (a.2 = b.2 ∧ a.1 < b.1)) ∧
      ∀ p ∈ rankedPairs chunks targets,
        p.2 = scoreChunk (chunks.getD p.1 []) targets) := by
  have hperm : (rankedPairs chunks targets).Perm (chunkScores chunks targets) :=
    List.perm_insertionSort _ _
  have hlookup : (chunkScores chunks targets).map
      (fun p => chunks.getD p.1 []) = chunks := by
    have hcomp : (chunkScores chunks targets).map
        (fun p => chunks.getD p.1 []) =
        chunks.enum.map (fun p => chunks.getD p.1 []) := by
      simp [chunkScores, List.map_map, Function.comp]
    rw [hcomp]
    exact enum_map_getD chunks []
  by_cases ht : targets = []
  · refine ⟨?_, fun _ => by simp [prioritize_chunks, ht], fun hne => absurd ht hne⟩
    simp [prioritize_chunks, ht]
  · have hempty : targets.isEmpty = false := by
      cases targets with
      | nil => exact absurd rfl ht
      | cons a l => rfl
    have hmap : prioritize_chunks chunks targets =
        (rankedPairs chunks targets).map (fun p => chunks.getD p.1 []) := by
      simp [prioritize_chunks, hempty]
    refine ⟨?_, fun h => absurd h ht, fun _ => ⟨hmap, ?_, ?_⟩⟩
    · rw [hmap]
      have h1 := hperm.map (fun p => chunks.getD p.1 [])
      have h2 : ((chunkScores chunks targets).map
          (fun p => chunks.getD p.1 [])).Perm chunks := by
        rw [hlookup]
      exact h1.trans h2
    · -- sortedness in the strict key order
      haveI : IsTotal (Nat × Nat) (fun a b => rankKeyLe a b = true) :=
        ⟨rankKeyLe_total⟩
      haveI : IsTrans (Nat × Nat) (fun a b => rankKeyLe a b = true) :=
        ⟨rankKeyLe_trans⟩
      have hsorted : (rankedPairs chunks targets).Pairwise
          (fun a b => rankKeyLe a b = true) :=
        List.sorted_insertionSort _ _
      have hnodup : ((rankedPairs chunks targets).map Prod.fst).Nodup := by
        have hp : ((chunkScores chunks targets).map Prod.fst).Perm
            ((rankedPairs chunks targets).map Prod.fst) :=
          (hperm.map Prod.fst).symm
        have hn : ((chunkScores chunks targets).map Prod.fst).Nodup := by
          rw [chunkScores_map_fst]
          exact List.nodup_range _
        exact hp.nodup hn
      have hpairfst : (rankedPairs chunks targets).Pairwise
          (fun a b => a.1 ≠ b.1) := List.pairwise_map.mp hnodup
      exact (hsorted.and hpairfst).imp (by
        intro a b hab
        obtain ⟨hr, hne⟩ := hab
        simp only [rankKeyLe, Bool.or_eq_true, Bool.and_eq_true,
          decide_eq_true_iff, beq_iff_eq] at hr
        omega)
    · -- each ranked pair carries the score of the chunk at its index
      intro p hp
      have hpcs : p ∈ chunkScores chunks targets := hperm.mem_iff.mp hp
      simp only [chunkScores, List.mem_map] at hpcs
      obtain ⟨q, hq, hpq⟩ := hpcs
      have hget : chunks[q.1]? = some q.2 :=
        List.mem_enum_iff_getElem?.mp hq
      obtain ⟨hb, hv⟩ := List.getElem?_eq_some.mp hget
      have hgd : chunks.getD q.1 [] = q.2 := by
        rw [List.getD_eq_getElem chunks [] hb, hv]
      rw [← hpq]
      show scoreChunk q.2 targets = scoreChunk (chunks.getD q.1 []) targets
      rw [hgd]

/-- C8 witness: the ranking specification at a concrete chunk list, for
both a non-empty and an empty target list. -/
theorem prioritizeChunks_rank_spec_witness :
    (prioritize_chunks [String.toList "xx", String.toList "section"]
        [String.toList "zzzzz"]).Perm
      [String.toList "xx", String.toList "section"] ∧
    prioritize_chunks [String.toList "xx", String.toList "section"] [] =
      [String.toList "xx", String.toList "section"] :=
  ⟨(prioritizeChunks_rank_spec [String.toList "xx", String.toList "section"]
      [String.toList "zzzzz"]).1,
   (prioritizeChunks_rank_spec [String.toList "xx", String.toList "section"]
      []).2.1 rfl⟩

end ContractAssistant
